import Mathlib

/-!
Verification of the line-event repository: a shallow embedding of the
scraper (`scripts/fetchEvents.js`) and the frontend (`app.js`), together
with theorems about the classification, status-derivation, merge,
selection, aggregation and filtering logic.

JS strings are modelled as lists of characters; JS `null`/`undefined`
field values are modelled with `Option`; machine time is an `Int` count
of milliseconds since the Unix epoch (JS `Date.prototype.getTime`).
-/

namespace LineEvent

/-- JS strings, modelled as lists of characters. -/
abbrev Str := List Char

/-- JS `String.prototype.includes`: substring containment. -/
def includes (hay needle : Str) : Bool := decide (needle <:+: hay)

/-- JS `String.prototype.trim`: drop whitespace from both ends. -/
def jsTrim (s : Str) : Str :=
  ((s.dropWhile Char.isWhitespace).reverse.dropWhile Char.isWhitespace).reverse

/-- Truthiness of a JS string: only the empty string is falsy. -/
def strTruthy (s : Str) : Bool := !s.isEmpty

/-- Truthiness of a nullable JS string (`none` models `null`/`undefined`). -/
def optStrTruthy : Option Str → Bool
  | none => false
  | some s => strTruthy s

/-- The event categories used by both the scraper and the frontend. -/
inductive Category where
  | meeting | outing | movie | workshop | other
deriving DecidableEq, Repr

/-- `CATEGORY_KEYWORDS` of `scripts/fetchEvents.js` (lines 25-30). -/
def scraperKeywords : Category → List Str
  | .meeting => (["會議", "理事", "理監事", "委員", "會員", "座談", "大會", "議"] : List String).map (·.toList)
  | .outing => (["出遊", "旅遊", "旅行", "參訪", "觀摩", "遊程", "團遊"] : List String).map (·.toList)
  | .movie => (["電影", "影展", "影唱", "電影活動", "改版播放"] : List String).map (·.toList)
  | .workshop => (["講習", "課程", "研習", "培訓", "講座", "講堂", "工作坊", "訓練"] : List String).map (·.toList)
  | .other => []

/-- `CATEGORY_KEYWORDS` of `app.js` (lines 11-17). -/
def appKeywords : Category → List Str
  | .outing => (["出遊", "旅遊", "旅行", "參訪", "觀摩", "遊程", "國外旅遊", "團遊"] : List String).map (·.toList)
  | .meeting => (["會議", "理事", "理監事", "委員", "會員", "座談", "大會", "議"] : List String).map (·.toList)
  | .movie => (["電影", "影展", "影視", "電影欣賞", "影片", "放映"] : List String).map (·.toList)
  | .workshop => (["講習", "課程", "研習", "培訓", "講座", "講堂", "工作坊", "訓練"] : List String).map (·.toList)
  | .other => (["其他"] : List String).map (·.toList)

/-- `CATEGORY_PRIORITY`, identical in both files. -/
def CATEGORY_PRIORITY : List Category := [.movie, .workshop, .meeting, .outing]

/-- `OUTING_MARKERS`, identical in both files. -/
def OUTING_MARKERS : List Str := (["遊"] : List String).map (·.toList)

/-- `detectCategory` of `scripts/fetchEvents.js` (lines 74-90): priority
keyword scan first, then the outing-marker fallback. -/
def detectCategory (title : Str) : Category :=
  if title.isEmpty then .other else
  let normalized := jsTrim title
  match CATEGORY_PRIORITY.find? (fun category =>
      (scraperKeywords category).any (fun word => includes normalized word)) with
  | some category => category
  | none =>
      if OUTING_MARKERS.any (fun marker => includes normalized marker) then .outing
      else .other

/-- `detectCategoryFromTitle` of `app.js` (lines 178-194): outing-marker
check first, then the priority keyword scan. -/
def detectCategoryFromTitle (title : Str) : Category :=
  if title.isEmpty then .other else
  let normalized := jsTrim title
  if OUTING_MARKERS.any (fun marker => includes normalized marker) then .outing
  else
    match CATEGORY_PRIORITY.find? (fun category =>
        (appKeywords category).any (fun keyword => includes normalized keyword)) with
    | some category => category
    | none => .other

example : detectCategory "出遊電影".toList = .movie := by decide
example : detectCategoryFromTitle "出遊電影".toList = .outing := by decide
example : detectCategory "電影講習會議".toList = .movie := by decide
example : detectCategory "理監事會議".toList = .meeting := by decide
example : detectCategoryFromTitle "電影欣賞之夜".toList = .movie := by decide
example : detectCategory "健行天".toList = .other := by decide

/-! ## Data model

`parseEvents` (fetchEvents.js lines 105-167) always emits records with the
keys `title, detailUrl, location, dates, timeInfo, note, noteUrl, register,
registerUrl, extras, category` (`null` when the list row lacks a value) and
never emits `downloads` or `remarks`; `FreshEvent` is that record shape.
`Event` is the persisted shape (the cache file written by a previous run),
which additionally carries `remarks` and `downloads` (`none` models an
absent or non-array `downloads` key). -/

/-- A `{label, url}` link pair (downloads and extras). -/
structure Download where
  label : Str
  url : Str
deriving DecidableEq, Repr

/-- A list-row event as produced by `parseEvents` (fetchEvents.js lines 151-163). -/
structure FreshEvent where
  title : Str
  detailUrl : Option Str
  location : Option Str
  dates : List Str
  timeInfo : List Str
  note : Option Str
  noteUrl : Option Str
  register : Option Str
  registerUrl : Option Str
  extras : List Download
  category : Category
deriving DecidableEq, Repr

/-- A persisted event as written to `data/events.json` and read back as cache. -/
structure Event where
  title : Str
  detailUrl : Option Str
  location : Option Str
  dates : List Str
  timeInfo : List Str
  note : Option Str
  noteUrl : Option Str
  register : Option Str
  registerUrl : Option Str
  extras : List Download
  category : Option Category
  remarks : Option Str
  downloads : Option (List Download)
deriving DecidableEq, Repr

/-- A fresh event viewed as a persisted event: it carries no `downloads` or
`remarks` keys. -/
def FreshEvent.toEvent (f : FreshEvent) : Event :=
  { title := f.title, detailUrl := f.detailUrl, location := f.location,
    dates := f.dates, timeInfo := f.timeInfo, note := f.note,
    noteUrl := f.noteUrl, register := f.register, registerUrl := f.registerUrl,
    extras := f.extras, category := some f.category,
    remarks := none, downloads := none }

/-- The identity key `event.detailUrl || event.title` (a falsy `detailUrl`,
i.e. `null` or the empty string, falls through to the title). -/
def eventKey (detailUrl : Option Str) (title : Str) : Str :=
  match detailUrl with
  | some u => if u.isEmpty then title else u
  | none => title

/-- The cache: `existingMap.get`, a partial map from identity key to the
cached event (`loadExistingMap`, fetchEvents.js lines 232-246). -/
abbrev Cache := Str → Option Event

/-- The JS spread `{ ...cached, ...evt }` specialised to the key sets that
actually occur: a fresh list-row event carries every key except `downloads`
and `remarks`, so all of those keys (including explicit `null` values) take
the fresh value, while `downloads` and `remarks` survive from the cache. -/
def mergeCachedFresh (cached : Event) (fresh : FreshEvent) : Event :=
  { title := fresh.title, detailUrl := fresh.detailUrl, location := fresh.location,
    dates := fresh.dates, timeInfo := fresh.timeInfo, note := fresh.note,
    noteUrl := fresh.noteUrl, register := fresh.register,
    registerUrl := fresh.registerUrl, extras := fresh.extras,
    category := some fresh.category,
    remarks := cached.remarks, downloads := cached.downloads }

/-- The merge step of `enrichWithDetails` (fetchEvents.js lines 249-253):
look the identity key up in the cache (a falsy key skips the lookup) and
overlay the cached record with the fresh one. -/
def mergeStep (cache : Cache) (evt : FreshEvent) : Event :=
  let key := eventKey evt.detailUrl evt.title
  if key.isEmpty then evt.toEvent
  else
    match cache key with
    | some cached => mergeCachedFresh cached evt
    | none => evt.toEvent

/-- `existing.downloads` is an array with at least one entry
(fetchEvents.js line 226). -/
def hasDownloads (e : Event) : Bool :=
  match e.downloads with
  | some l => !l.isEmpty
  | none => false

/-- `Boolean(existing.remarks)` (fetchEvents.js line 227). -/
def hasRemarks (e : Event) : Bool := optStrTruthy e.remarks

/-- `Boolean(existing.registerUrl || existing.register)` (fetchEvents.js line 228). -/
def hasRegister (e : Event) : Bool :=
  optStrTruthy e.registerUrl || optStrTruthy e.register

/-- `shouldFetchDetail` (fetchEvents.js lines 224-230). -/
def shouldFetchDetail (existing : Option Event) : Bool :=
  match existing with
  | none => true
  | some e => !(hasDownloads e && hasRemarks e && hasRegister e)

/-- The target-selection predicate of `enrichWithDetails`
(fetchEvents.js line 257): a truthy `detailUrl` and an incomplete cache
record under the identity key. -/
def isTargetEvent (cache : Cache) (e : Event) : Bool :=
  optStrTruthy e.detailUrl && shouldFetchDetail (cache (eventKey e.detailUrl e.title))

/-- The target list of `enrichWithDetails` (fetchEvents.js lines 255-257):
merged events paired with their index, filtered by the selection predicate. -/
def detailTargets (cache : Cache) (merged : List Event) : List (Event × Nat) :=
  (merged.enum.map (fun p => (p.2, p.1))).filter (fun p => isTargetEvent cache p.1)

/-- The result of `parseDetail` (fetchEvents.js lines 169-213): the field
map in row order (values are `join` of the cell texts or `null`), the
download links, and the registration info (`registerInfo.label` /
`registerInfo.url`; both absent models the initial empty object). -/
structure DetailResult where
  fields : List (Str × Option Str)
  downloads : List Download
  registerLabel : Option Str
  registerUrl : Option Str
deriving DecidableEq, Repr

/-- The detail fetch capability `fetchDetailSafe`: network + HTML parsing,
external to the pipeline.  `Except.error` models a thrown exception. -/
abbrev Fetch := Str → Except Str DetailResult

/-- `REMARK_FIELD_NAMES` (fetchEvents.js line 35). -/
def REMARK_FIELD_NAMES : List Str := (["備註", "備考", "注意事項"] : List String).map (·.toList)

/-- `extractRemarks` (fetchEvents.js lines 215-217): the value of the first
field entry with a truthy value whose label contains a remark-label name. -/
def extractRemarks (fields : List (Str × Option Str)) : Option Str :=
  match fields.find? (fun kv =>
      optStrTruthy kv.2 && REMARK_FIELD_NAMES.any (fun label => includes kv.1 label)) with
  | some kv => kv.2
  | none => none

/-- The body of the fetch worker on a successful fetch
(fetchEvents.js lines 270-278): apply remarks, registration info and the
url-bearing downloads to the merged slot, each only when non-empty. -/
def applyDetailResult (d : DetailResult) (e : Event) : Event :=
  let remarks := extractRemarks d.fields
  let e1 := if optStrTruthy remarks then { e with remarks := remarks } else e
  let e2 := if optStrTruthy d.registerLabel then { e1 with register := d.registerLabel } else e1
  let e3 := if optStrTruthy d.registerUrl then { e2 with registerUrl := d.registerUrl } else e2
  let validDownloads := d.downloads.filter (fun dl => strTruthy dl.url)
  if !validDownloads.isEmpty then { e3 with downloads := some validDownloads } else e3

/-- The per-slot effect of the worker pool on one merged event: a fetch
target gets its detail page fetched and applied (a thrown fetch leaves the
slot unchanged); a non-target is left unchanged. -/
def enrichSlot (fetch : Fetch) (cache : Cache) (e : Event) : Event :=
  if isTargetEvent cache e then
    match e.detailUrl with
    | some url =>
        match fetch url with
        | .ok d => applyDetailResult d e
        | .error _ => e
    | none => e
  else e

/-- `enrichWithDetails` (fetchEvents.js lines 248-295).  The bounded worker
pool claims each target index exactly once and writes only to its own
array slot, so its net effect is the per-slot `enrichSlot` applied to every
merged event; the inter-fetch delay only affects timing. -/
def enrichWithDetails (fetch : Fetch) (cache : Cache) (events : List FreshEvent) : List Event :=
  let merged := events.map (mergeStep cache)
  merged.map (enrichSlot fetch cache)

/-- The identity key of a fresh list-row event. -/
def freshKey (event : FreshEvent) : Str := eventKey event.detailUrl event.title

/-- One step of the aggregation loop of `collectEvents`
(fetchEvents.js lines 304-310): push an event iff its identity key is
truthy and unseen (`seen` is modelled as the list of keys added so far). -/
def dedupStep (st : List Str × List FreshEvent) (event : FreshEvent) : List Str × List FreshEvent :=
  let key := freshKey event
  if strTruthy key && !(decide (key ∈ st.1)) then (key :: st.1, st.2 ++ [event])
  else st

/-- The aggregation of `collectEvents` (fetchEvents.js lines 297-311) over
the parsed list pages (page fetching and HTML parsing are the external
capabilities `fetchPage`/`parseEvents`): pages in order, rows in order,
deduplicated by identity key with a shared seen set. -/
def aggregateEvents (pages : List (List FreshEvent)) : List FreshEvent :=
  (pages.foldl (fun st events => events.foldl dedupStep st) ([], [])).2

/-! ## Frontend: date parsing and status derivation (app.js) -/

/-- The numeric value of a decimal digit character. -/
def digitVal (c : Char) : Option Int :=
  if c.isDigit then some ((c.toNat : Int) - 48) else none

/-- A two-digit decimal number. -/
def num2 (a b : Char) : Option Int := do
  let x ← digitVal a
  let y ← digitVal b
  pure (x * 10 + y)

/-- A four-digit decimal number. -/
def num4 (a b c d : Char) : Option Int := do
  let x ← num2 a b
  let y ← num2 c d
  pure (x * 100 + y)

/-- Leap-year rule of the proleptic Gregorian calendar. -/
def isLeapYear (y : Int) : Bool :=
  (y % 4 == 0 && y % 100 != 0) || (y % 400 == 0)

/-- Days in a month of the Gregorian calendar. -/
def daysInMonth (y m : Int) : Int :=
  if m = 2 then (if isLeapYear y then 29 else 28)
  else if m = 4 ∨ m = 6 ∨ m = 9 ∨ m = 11 then 30
  else 31

/-- Days since the Unix epoch of a Gregorian calendar date
(the standard civil-from-days inversion). -/
def daysFromCivil (y m d : Int) : Int :=
  let yy := if m ≤ 2 then y - 1 else y
  let era := Int.fdiv yy 400
  let yoe := yy - era * 400
  let mp := (m + 9) % 12
  let doy := Int.fdiv (153 * mp + 2) 5 + d - 1
  let doe := yoe * 365 + Int.fdiv yoe 4 - Int.fdiv yoe 100 + doy
  era * 146097 + doe - 719468

/-- Models the platform `new Date(string)` timestamp parser on the ISO
offset format `yyyy-mm-ddThh:mm:ss+hh:mm` (the format `parseDate` builds
for the scraped bare calendar dates); out-of-range components give an
invalid date, and every other shape is modelled as a parse failure.
Returns milliseconds since the Unix epoch. -/
def jsDateParse (s : Str) : Option Int :=
  match s with
  | [y1, y2, y3, y4, c1, m1, m2, c2, d1, d2, t, h1, h2, c3, n1, n2, c4, s1, s2,
     sg, o1, o2, c5, p1, p2] => do
    if c1 = '-' ∧ c2 = '-' ∧ t = 'T' ∧ c3 = ':' ∧ c4 = ':' ∧ c5 = ':' then
      let year ← num4 y1 y2 y3 y4
      let month ← num2 m1 m2
      let day ← num2 d1 d2
      let hour ← num2 h1 h2
      let minute ← num2 n1 n2
      let sec ← num2 s1 s2
      let offHour ← num2 o1 o2
      let offMin ← num2 p1 p2
      let sign ← if sg = '+' then some (1 : Int) else if sg = '-' then some (-1) else none
      if 1 ≤ month ∧ month ≤ 12 ∧ 1 ≤ day ∧ day ≤ daysInMonth year month ∧
          hour ≤ 23 ∧ minute ≤ 59 ∧ sec ≤ 59 ∧ offHour ≤ 23 ∧ offMin ≤ 59 then
        pure ((daysFromCivil year month day * 86400 + hour * 3600 + minute * 60 + sec -
          sign * (offHour * 3600 + offMin * 60)) * 1000)
      else none
    else none
  | _ => none

/-- `parseDate` (app.js lines 150-159): normalise `/` to `-`, expand a
10-character bare date to local midnight at UTC+8, and parse. -/
def parseDate (value : Str) : Option Int :=
  if value.isEmpty then none
  else
    let normalized := (jsTrim value).map (fun c => if c = '/' then '-' else c)
    let isoCandidate :=
      if normalized.length = 10 then normalized ++ "T00:00:00+08:00".toList else normalized
    jsDateParse isoCandidate

example : parseDate "2024-06-01".toList = some 1717171200000 := by decide
example : parseDate "2024/06/08".toList = some 1717776000000 := by decide
example : parseDate "not a date".toList = none := by decide
example : parseDate "2024-02-31".toList = none := by decide

/-- `UPCOMING_SOON_DAYS` (app.js line 3). -/
def UPCOMING_SOON_DAYS : Int := 7

/-- Milliseconds per day (`24 * 60 * 60 * 1000`, app.js line 211). -/
def MS_PER_DAY : Int := 86400000

/-- The status buckets of the frontend. -/
inductive Status where
  | comingSoon | upcoming | past | noDate
deriving DecidableEq, Repr

/-- The status strings used in the JSON-facing filter state. -/
def statusToStr : Status → Str
  | .comingSoon => "coming-soon".toList
  | .upcoming => "upcoming".toList
  | .past => "past".toList
  | .noDate => "no-date".toList

/-- The category strings used in the JSON payload and the category select. -/
def categoryToStr : Category → Str
  | .meeting => "meeting".toList
  | .outing => "outing".toList
  | .movie => "movie".toList
  | .workshop => "workshop".toList
  | .other => "other".toList

/-- Insert into a sorted list before the first element not below `a`. -/
def orderedInsert (le : α → α → Bool) (a : α) : List α → List α
  | [] => [a]
  | b :: l => if le a b then a :: b :: l else b :: orderedInsert le a l

/-- A stable sort.  JS `Array.prototype.sort` is stable and, for a
consistent comparator `cmp`, the stable order with respect to
`le a b := cmp a b ≤ 0` is unique, so the JS sorts of `app.js` are
embedded as this structurally recursive stable insertion sort. -/
def stableSort (le : α → α → Bool) : List α → List α
  | [] => []
  | a :: l => orderedInsert le a (stableSort le l)

/-- An event as enriched at display time by `enrichEvent`
(app.js lines 196-234); never persisted. -/
structure EnrichedEvent where
  title : Str
  detailUrl : Option Str
  location : Option Str
  dates : List Str
  timeInfo : List Str
  note : Option Str
  noteUrl : Option Str
  register : Option Str
  registerUrl : Option Str
  extras : List Download
  category : Category
  remarks : Option Str
  downloads : Option (List Download)
  parsedDates : List Int
  startDate : Option Int
  endDate : Option Int
  referenceDate : Option Int
  statusCategory : Status
  daysUntilStart : Option Int
deriving DecidableEq, Repr

/-- `enrichEvent` (app.js lines 196-234) with the Taipei-local "today"
timestamp injected (the code reads it ambiently through `getTaipeiToday`;
the determinism contract of the spec injects it). -/
def enrichEvent (today : Int) (e : Event) : EnrichedEvent :=
  let parsedDates := stableSort (fun a b => decide (a ≤ b)) (e.dates.filterMap parseDate)
  let upcomingDate := parsedDates.find? (fun d => decide (today ≤ d))
  let referenceDate := upcomingDate <|> parsedDates.getLast?
  let sc : Status × Option Int :=
    match referenceDate with
    | none => (.noDate, none)
    | some ref =>
        let diffDays := Int.fdiv (ref - today) MS_PER_DAY
        (if diffDays < 0 then .past
         else if diffDays ≤ UPCOMING_SOON_DAYS then .comingSoon
         else .upcoming, some diffDays)
  { title := e.title, detailUrl := e.detailUrl, location := e.location,
    dates := e.dates, timeInfo := e.timeInfo, note := e.note, noteUrl := e.noteUrl,
    register := e.register, registerUrl := e.registerUrl, extras := e.extras,
    category := e.category.getD (detectCategoryFromTitle e.title),
    remarks := e.remarks, downloads := e.downloads,
    parsedDates := parsedDates,
    startDate := parsedDates.head?,
    endDate := parsedDates.getLast?,
    referenceDate := referenceDate,
    statusCategory := sc.1,
    daysUntilStart := sc.2 }

/-! ## Frontend: filter state, filtering and sorting (app.js) -/

/-- `DEFAULT_STATUS_VALUES` (app.js line 24). -/
def DEFAULT_STATUS_VALUES : List Str :=
  (["coming-soon", "upcoming"] : List String).map (·.toList)

/-- JS `Set.prototype.add` on an insertion-ordered set. -/
def setAdd (s : List Str) (v : Str) : List Str :=
  if s.contains v then s else s ++ [v]

/-- JS `Set.prototype.delete` on an insertion-ordered set. -/
def setDelete (s : List Str) (v : Str) : List Str :=
  s.filter (fun x => x ≠ v)

/-- The status-checkbox change handler (app.js lines 68-85): add on check;
on uncheck delete, and if the set became empty re-add the value (and revert
the checkbox). -/
def toggleStatus (s : List Str) (value : Str) (checked : Bool) : List Str :=
  if checked then setAdd s value
  else
    let s1 := setDelete s value
    if s1.length = 0 then setAdd s1 value else s1

/-- The frontend filter state (`state.filters`, app.js lines 29-34). -/
structure FilterState where
  search : Str
  sort : Str
  category : Str
  statuses : List Str
deriving DecidableEq, Repr

/-- Models `String.prototype.toLowerCase` (character-wise lowering; the
searched text is Chinese and ASCII, on which this agrees with JS). -/
def jsToLower (s : Str) : Str := s.map Char.toLower

/-- The searchable text of an event (app.js lines 263-270): title,
location, raw dates and time info joined by spaces, lower-cased. -/
def searchText (e : EnrichedEvent) : Str :=
  jsToLower (List.intercalate [' ']
    ([e.title, e.location.getD []] ++ e.dates ++ e.timeInfo))

/-- `compareStart` (app.js lines 290-298): compare by
`referenceDate || startDate`, missing dates sort as larger, present dates
by timestamp difference. -/
def compareStart (a b : EnrichedEvent) : Int :=
  match a.referenceDate <|> a.startDate, b.referenceDate <|> b.startDate with
  | none, none => 0
  | none, some _ => 1
  | some _, none => -1
  | some x, some y => x - y

/-- Models the platform collator `localeCompare(.., zh-Hant)` as
code-point lexicographic comparison (only its use as a total comparator
matters to the claims below). -/
def localeCompareZh : Str → Str → Int
  | [], [] => 0
  | [], _ :: _ => -1
  | _ :: _, [] => 1
  | x :: xs, y :: ys => if x = y then localeCompareZh xs ys else (x.toNat : Int) - y.toNat

/-- `applyFilters` (app.js lines 257-314): text search, status filter,
category filter, then a stable sort by the selected comparator
(embedded via `stableSort` with `le a b := cmp a b ≤ 0`). -/
def applyFilters (filters : FilterState) (events : List EnrichedEvent) : List EnrichedEvent :=
  let query := jsToLower filters.search
  let r1 :=
    if strTruthy query then events.filter (fun e => includes (searchText e) query)
    else events
  let r2 :=
    if !filters.statuses.isEmpty then
      r1.filter (fun e => filters.statuses.contains (statusToStr e.statusCategory))
    else r1
  let r3 :=
    if filters.category ≠ "all".toList then
      r2.filter (fun e => categoryToStr e.category = filters.category)
    else r2
  if filters.sort = "start-desc".toList then
    stableSort (fun a b => decide (compareStart b a ≤ 0)) r3
  else if filters.sort = "title-asc".toList then
    stableSort (fun a b => decide (localeCompareZh a.title b.title ≤ 0)) r3
  else
    stableSort (fun a b => decide (compareStart a b ≤ 0)) r3

/-! ## Theorems -/

deriving instance DecidableEq for Except

/-- `setAdd` never returns the empty set. -/
lemma setAdd_ne_nil (s : List Str) (v : Str) : setAdd s v ≠ [] := by
  unfold setAdd
  split
  · next h => intro hnil; rw [hnil] at h; simp at h
  · simp

/-- One toggle never empties the status set. -/
lemma toggleStatus_ne_nil (s : List Str) (v : Str) (c : Bool) : toggleStatus s v c ≠ [] := by
  unfold toggleStatus
  cases c with
  | true => simpa using setAdd_ne_nil s v
  | false =>
      simp only [Bool.false_eq_true, if_false]
      split
      · exact setAdd_ne_nil _ v
      · next h => intro hnil; rw [hnil] at h; simp at h

/-- C8: starting from the default filter state, no sequence of
status-checkbox toggle events can empty the set of allowed status
categories: unchecking the last checked status re-adds the value. -/
theorem c8_status_set_never_empty (toggles : List (Str × Bool)) :
    toggles.foldl (fun s t => toggleStatus s t.1 t.2) DEFAULT_STATUS_VALUES ≠ [] := by
  have aux : ∀ (l : List (Str × Bool)) (s : List Str), s ≠ [] →
      l.foldl (fun s t => toggleStatus s t.1 t.2) s ≠ [] := by
    intro l
    induction l with
    | nil => intro s hs; simpa using hs
    | cons t l ih =>
        intro s _
        simpa using ih (toggleStatus s t.1 t.2) (toggleStatus_ne_nil s t.1 t.2)
  exact aux toggles DEFAULT_STATUS_VALUES (by decide)

/-- C5: the derived status of an event is `no-date` with no day offset
exactly when no reference date exists; otherwise `daysUntilStart` is the
floor of `(referenceDate - today) / 1 day` and the status is `past` below
0, `coming-soon` between 0 and 7, and `upcoming` above 7. -/
theorem c5_status_derivation (today : Int) (e : Event) :
    ((enrichEvent today e).referenceDate = none ↔
      (enrichEvent today e).statusCategory = .noDate ∧
        (enrichEvent today e).daysUntilStart = none) ∧
    (∀ ref : Int, (enrichEvent today e).referenceDate = some ref →
      (enrichEvent today e).daysUntilStart = some (Int.fdiv (ref - today) MS_PER_DAY) ∧
      (Int.fdiv (ref - today) MS_PER_DAY < 0 →
        (enrichEvent today e).statusCategory = .past) ∧
      (0 ≤ Int.fdiv (ref - today) MS_PER_DAY ∧ Int.fdiv (ref - today) MS_PER_DAY ≤ 7 →
        (enrichEvent today e).statusCategory = .comingSoon) ∧
      (7 < Int.fdiv (ref - today) MS_PER_DAY →
        (enrichEvent today e).statusCategory = .upcoming)) := by
  unfold enrichEvent
  set pd := stableSort (fun a b => decide (a ≤ b)) (e.dates.filterMap parseDate) with hpd
  cases hrd : pd.find? (fun d => decide (today ≤ d)) <|> pd.getLast? with
  | none =>
      refine ⟨by simp [hrd], ?_⟩
      intro ref h
      simp only [hrd] at h
      exact absurd h (by simp)
  | some r =>
      refine ⟨by simp [hrd], ?_⟩
      intro ref h
      simp only [hrd] at h
      have hr : r = ref := by simpa using h
      subst hr
      refine ⟨by simp [hrd], ?_, ?_, ?_⟩
      · intro hneg
        simp only [hrd]
        simp [UPCOMING_SOON_DAYS, hneg]
      · intro hband
        simp only [hrd]
        have hx : ¬ Int.fdiv (r - today) MS_PER_DAY < 0 := by omega
        simp [UPCOMING_SOON_DAYS, hx, hband.2]
      · intro hup
        simp only [hrd]
        have h1 : ¬ Int.fdiv (r - today) MS_PER_DAY < 0 := by omega
        have h2 : ¬ Int.fdiv (r - today) MS_PER_DAY ≤ UPCOMING_SOON_DAYS := by
          simp only [UPCOMING_SOON_DAYS]; omega
        simp [h1, h2]

/-- C4: an event of the merged list is selected as a detail-fetch target
iff it has a (truthy) `detailUrl` and the cached record under its identity
key, when there is one, is missing complete detail data (at least one
download, remarks, and a registration signal); an event with a `detailUrl`
but no cached record is always a target, and an event without a
`detailUrl` never is. -/
theorem c4_target_selection (cache : Cache) (events : List FreshEvent) (i : Nat) (e : Event)
    (h : (events.map (mergeStep cache))[i]? = some e) :
    ((e, i) ∈ detailTargets cache (events.map (mergeStep cache))) ↔
      (optStrTruthy e.detailUrl = true ∧
        ∀ cached : Event, cache (eventKey e.detailUrl e.title) = some cached →
          ¬(hasDownloads cached = true ∧ hasRemarks cached = true ∧
            hasRegister cached = true)) := by
  unfold detailTargets
  rw [List.mem_filter]
  have hmem : ((e, i) ∈ (events.map (mergeStep cache)).enum.map (fun p => (p.2, p.1))) ↔
      ((i, e) ∈ (events.map (mergeStep cache)).enum) := by
    rw [List.mem_map]
    constructor
    · rintro ⟨⟨a, b⟩, hab, heq⟩
      obtain ⟨rfl, rfl⟩ : b = e ∧ a = i := by simpa using heq
      exact hab
    · intro hin
      exact ⟨(i, e), hin, rfl⟩
  rw [hmem, List.mk_mem_enum_iff_getElem?, h]
  simp only [true_and]
  unfold isTargetEvent shouldFetchDetail
  cases hc : cache (eventKey e.detailUrl e.title) with
  | none => simp
  | some cached =>
      have hb : (!(hasDownloads cached && hasRemarks cached && hasRegister cached)) = true ↔
          ¬(hasDownloads cached = true ∧ hasRemarks cached = true ∧
            hasRegister cached = true) := by
        cases hD : hasDownloads cached <;> cases hR : hasRemarks cached <;>
          cases hG : hasRegister cached <;> simp
      rw [Bool.and_eq_true, hb]
      constructor
      · rintro ⟨h1, h2⟩
        refine ⟨h1, ?_⟩
        intro c hcc
        obtain rfl : cached = c := by simpa using hcc
        exact h2
      · rintro ⟨h1, h2⟩
        exact ⟨h1, h2 cached rfl⟩

/-- A detail-page url for the C4 witness. -/
def c4url : Str := "https://www.kaa.org.tw/news_detail.php?t1=1&id=101".toList

/-- A fresh list-row event for the C4 witness. -/
def c4fresh : FreshEvent :=
  { title := "活動一".toList, detailUrl := some c4url, location := none,
    dates := [], timeInfo := [], note := none, noteUrl := none,
    register := none, registerUrl := none, extras := [], category := .other }

/-- An empty cache for the C4 witness. -/
def c4cache : Cache := fun _ => none

/-- Witness for C4: with an empty cache, an event with a detail url is a
fetch target. -/
theorem c4_target_selection_witness :
    (mergeStep c4cache c4fresh, 0) ∈
      detailTargets c4cache ([c4fresh].map (mergeStep c4cache)) :=
  (c4_target_selection c4cache [c4fresh] 0 (mergeStep c4cache c4fresh) (by decide)).mpr
    ⟨by decide, fun cached hc => by simp [c4cache] at hc⟩

/-- A detail-page url for the C3 counterexample. -/
def c3url : Str := "https://www.kaa.org.tw/news_detail.php?t1=1&id=77".toList

/-- A fresh list-row event for the C3 counterexample: carries no
`downloads`/`remarks` keys and a null registration. -/
def c3fresh : FreshEvent :=
  { title := "年度活動".toList, detailUrl := some c3url, location := none,
    dates := [], timeInfo := [], note := none, noteUrl := none,
    register := none, registerUrl := none, extras := [], category := .other }

/-- A cached record for the C3 counterexample: remarks and two downloads,
but no registration signal, hence incomplete. -/
def c3cached : Event :=
  { title := "年度活動".toList, detailUrl := some c3url, location := none,
    dates := [], timeInfo := [], note := none, noteUrl := none,
    register := none, registerUrl := none, extras := [], category := some .other,
    remarks := some "舊備註".toList,
    downloads := some [⟨"簡章".toList, "https://www.kaa.org.tw/f1.pdf".toList⟩,
      ⟨"報名表".toList, "https://www.kaa.org.tw/f2.pdf".toList⟩] }

/-- The single-entry cache for the C3 counterexample. -/
def c3cache : Cache := fun k => if k = c3url then some c3cached else none

/-- The detail page fetched in the C3 counterexample: a fresh remark. -/
def c3detail : DetailResult :=
  { fields := [("備註".toList, some "新備註".toList)], downloads := [],
    registerLabel := none, registerUrl := none }

/-- The fetch capability for the C3 counterexample. -/
def c3fetch : Fetch := fun _ => .ok c3detail

/-- Counterexample for C3: the fresh event's identity key is in the cache
and the fresh record supplies no remarks, yet the output of
`enrichWithDetails` at that position does not keep the cached remarks —
the event's cache record is incomplete, so a detail fetch overwrites them. -/
theorem c3_counterexample :
    c3cache (eventKey c3fresh.detailUrl c3fresh.title) = some c3cached ∧
    c3cached.remarks = some "舊備註".toList ∧
    (enrichWithDetails c3fetch c3cache [c3fresh]).map (fun e => e.remarks) =
      [some "新備註".toList] := by decide

/-- C3 (amended): for a fresh event whose identity key is in the cache and
which is not selected as a detail-fetch target, the output of
`enrichWithDetails` at that position is exactly the cached record overlaid
by the fresh record: every field the fresh record supplies takes the fresh
value, and `downloads`/`remarks` — which a fresh list-row never supplies —
keep their cached values. -/
theorem c3_merge_overlay (fetch : Fetch) (cache : Cache) (events : List FreshEvent)
    (i : Nat) (fresh : FreshEvent) (cached : Event)
    (hi : events[i]? = some fresh)
    (hk : (eventKey fresh.detailUrl fresh.title).isEmpty = false)
    (hc : cache (eventKey fresh.detailUrl fresh.title) = some cached)
    (hnt : isTargetEvent cache (mergeStep cache fresh) = false) :
    (enrichWithDetails fetch cache events)[i]? = some (mergeCachedFresh cached fresh) ∧
    (mergeCachedFresh cached fresh).title = fresh.title ∧
    (mergeCachedFresh cached fresh).detailUrl = fresh.detailUrl ∧
    (mergeCachedFresh cached fresh).location = fresh.location ∧
    (mergeCachedFresh cached fresh).dates = fresh.dates ∧
    (mergeCachedFresh cached fresh).timeInfo = fresh.timeInfo ∧
    (mergeCachedFresh cached fresh).note = fresh.note ∧
    (mergeCachedFresh cached fresh).noteUrl = fresh.noteUrl ∧
    (mergeCachedFresh cached fresh).register = fresh.register ∧
    (mergeCachedFresh cached fresh).registerUrl = fresh.registerUrl ∧
    (mergeCachedFresh cached fresh).extras = fresh.extras ∧
    (mergeCachedFresh cached fresh).category = some fresh.category ∧
    (mergeCachedFresh cached fresh).remarks = cached.remarks ∧
    (mergeCachedFresh cached fresh).downloads = cached.downloads := by
  have hms : mergeStep cache fresh = mergeCachedFresh cached fresh := by
    unfold mergeStep
    simp [hk, hc]
  refine ⟨?_, rfl, rfl, rfl, rfl, rfl, rfl, rfl, rfl, rfl, rfl, rfl, rfl, rfl⟩
  unfold enrichWithDetails
  rw [hms] at hnt
  simp [hi, hms, enrichSlot, hnt]

/-- A detail-page url for the C3 witness. -/
def c3wUrl : Str := "https://www.kaa.org.tw/news_detail.php?t1=1&id=88".toList

/-- A fresh list-row event for the C3 witness: no downloads key at all. -/
def c3wFresh : FreshEvent :=
  { title := "春季活動".toList, detailUrl := some c3wUrl, location := none,
    dates := ["2024-06-08".toList], timeInfo := [], note := none, noteUrl := none,
    register := none, registerUrl := none, extras := [], category := .other }

/-- A complete cached record for the C3 witness: two downloads, remarks
and a registration signal. -/
def c3wCached : Event :=
  { title := "春季活動".toList, detailUrl := some c3wUrl, location := none,
    dates := [], timeInfo := [], note := none, noteUrl := none,
    register := some "線上報名".toList,
    registerUrl := some "https://www.kaa.org.tw/news_apply.php?id=88".toList,
    extras := [], category := some .other,
    remarks := some "名額有限".toList,
    downloads := some [⟨"簡章".toList, "https://www.kaa.org.tw/a.pdf".toList⟩,
      ⟨"議程".toList, "https://www.kaa.org.tw/b.pdf".toList⟩] }

/-- The single-entry cache for the C3 witness. -/
def c3wCache : Cache := fun k => if k = c3wUrl then some c3wCached else none

/-- A fetch capability that always throws, for the C3 witness (a complete
cached record means it is never consulted). -/
def c3wFetch : Fetch := fun _ => .error "offline".toList

/-- Witness for C3 (amended): merging a fresh event with no downloads
against a complete cached event with 2 downloads and remarks yields a
merged output event retaining both the downloads and the remarks. -/
theorem c3_merge_overlay_witness :
    (enrichWithDetails c3wFetch c3wCache [c3wFresh])[0]? =
      some (mergeCachedFresh c3wCached c3wFresh) ∧
    (mergeCachedFresh c3wCached c3wFresh).downloads = c3wCached.downloads ∧
    (mergeCachedFresh c3wCached c3wFresh).remarks = c3wCached.remarks :=
  have h := c3_merge_overlay c3wFetch c3wCache [c3wFresh] 0 c3wFresh c3wCached
    (by decide) (by decide) (by decide) (by decide)
  ⟨h.1, h.2.2.2.2.2.2.2.2.2.2.2.2.2, h.2.2.2.2.2.2.2.2.2.2.2.2.1⟩

/-- C7: if the detail fetch for one target throws, the output of
`enrichWithDetails` at that event's position is its merge result unchanged
(no remarks, registration or downloads applied), the pipeline still
returns the full list, and every other target whose fetch succeeds still
gets its detail data applied. -/
theorem c7_fetch_failure_local (fetch : Fetch) (cache : Cache) (events : List FreshEvent)
    (i : Nat) (e : Event) (he : (events.map (mergeStep cache))[i]? = some e)
    (ht : isTargetEvent cache e = true)
    (url : Str) (hu : e.detailUrl = some url)
    (msg : Str) (hf : fetch url = .error msg) :
    (enrichWithDetails fetch cache events)[i]? = some e ∧
    (enrichWithDetails fetch cache events).length = events.length ∧
    (∀ (j : Nat) (e2 : Event) (d : DetailResult) (url2 : Str),
      (events.map (mergeStep cache))[j]? = some e2 →
      isTargetEvent cache e2 = true →
      e2.detailUrl = some url2 →
      fetch url2 = .ok d →
      (enrichWithDetails fetch cache events)[j]? = some (applyDetailResult d e2)) := by
  refine ⟨?_, ?_, ?_⟩
  · have hslot : enrichSlot fetch cache e = e := by
      unfold enrichSlot
      rw [ht, hu]
      simp [hf]
    unfold enrichWithDetails
    rw [List.getElem?_map, he]
    simp [hslot]
  · simp [enrichWithDetails]
  · intro j e2 d url2 hj ht2 hu2 hf2
    have hslot : enrichSlot fetch cache e2 = applyDetailResult d e2 := by
      unfold enrichSlot
      rw [ht2, hu2]
      simp [hf2]
    unfold enrichWithDetails
    rw [List.getElem?_map, hj]
    simp [hslot]

/-- Urls of the two C7 witness events. -/
def c7u1 : Str := "https://www.kaa.org.tw/news_detail.php?t1=1&id=1".toList

/-- Url of the second C7 witness event. -/
def c7u2 : Str := "https://www.kaa.org.tw/news_detail.php?t1=1&id=2".toList

/-- First fresh event of the C7 witness (its fetch will throw). -/
def c7f1 : FreshEvent :=
  { title := "活動甲".toList, detailUrl := some c7u1, location := none,
    dates := [], timeInfo := [], note := none, noteUrl := none,
    register := none, registerUrl := none, extras := [], category := .other }

/-- Second fresh event of the C7 witness (its fetch succeeds). -/
def c7f2 : FreshEvent :=
  { title := "活動乙".toList, detailUrl := some c7u2, location := none,
    dates := [], timeInfo := [], note := none, noteUrl := none,
    register := none, registerUrl := none, extras := [], category := .other }

/-- Empty cache for the C7 witness: both events are targets. -/
def c7cache : Cache := fun _ => none

/-- Detail data returned for the second C7 witness event. -/
def c7detail : DetailResult :=
  { fields := [("備註".toList, some "自備茶水".toList)],
    downloads := [⟨"簡章".toList, "https://www.kaa.org.tw/c.pdf".toList⟩],
    registerLabel := none, registerUrl := none }

/-- The fetch capability of the C7 witness: throws on the first url,
succeeds on every other. -/
def c7fetch : Fetch := fun u => if u = c7u1 then .error "HTTP 500".toList else .ok c7detail

/-- Witness for C7: the failing slot keeps its merge result, the
succeeding slot is enriched, and the full two-element list is returned. -/
theorem c7_fetch_failure_local_witness :
    (enrichWithDetails c7fetch c7cache [c7f1, c7f2])[0]? =
      some (mergeStep c7cache c7f1) ∧
    (enrichWithDetails c7fetch c7cache [c7f1, c7f2])[1]? =
      some (applyDetailResult c7detail (mergeStep c7cache c7f2)) ∧
    (enrichWithDetails c7fetch c7cache [c7f1, c7f2]).length = 2 :=
  have h := c7_fetch_failure_local c7fetch c7cache [c7f1, c7f2] 0
    (mergeStep c7cache c7f1) (by decide) (by decide) c7u1 (by decide)
    "HTTP 500".toList (by decide)
  ⟨h.1,
   h.2.2 1 (mergeStep c7cache c7f2) c7detail c7u2 (by decide) (by decide)
     (by decide) (by decide),
   h.2.1⟩

/-- C9: because a fresh list-row event always carries explicit `register`,
`registerUrl`, `note`, `noteUrl` and `location` keys, the merge step
overwrites the cached values of those fields with the fresh ones — fresh
nulls included.  For an event whose cached record is complete, the event
is not re-fetched, so registration info present only in the cache is
absent from the run's output. -/
theorem c9_fresh_nulls_overwrite (fetch : Fetch) (cache : Cache) (events : List FreshEvent)
    (i : Nat) (fresh : FreshEvent) (cached : Event)
    (hi : events[i]? = some fresh)
    (hfr : fresh.register = none) (hfu : fresh.registerUrl = none)
    (hk : (eventKey fresh.detailUrl fresh.title).isEmpty = false)
    (hc : cache (eventKey fresh.detailUrl fresh.title) = some cached)
    (hd : hasDownloads cached = true) (hr : hasRemarks cached = true)
    (hg : hasRegister cached = true) :
    isTargetEvent cache (mergeStep cache fresh) = false ∧
    (enrichWithDetails fetch cache events)[i]? = some (mergeCachedFresh cached fresh) ∧
    (mergeCachedFresh cached fresh).register = none ∧
    (mergeCachedFresh cached fresh).registerUrl = none ∧
    (mergeCachedFresh cached fresh).note = fresh.note ∧
    (mergeCachedFresh cached fresh).noteUrl = fresh.noteUrl ∧
    (mergeCachedFresh cached fresh).location = fresh.location := by
  have hms : mergeStep cache fresh = mergeCachedFresh cached fresh := by
    unfold mergeStep
    simp [hk, hc]
  have hkey : eventKey (mergeCachedFresh cached fresh).detailUrl
      (mergeCachedFresh cached fresh).title = eventKey fresh.detailUrl fresh.title := rfl
  have hnt : isTargetEvent cache (mergeStep cache fresh) = false := by
    rw [hms]
    unfold isTargetEvent shouldFetchDetail
    rw [hkey, hc]
    simp [hd, hr, hg]
  refine ⟨hnt, ?_, by simp [mergeCachedFresh, hfr], by simp [mergeCachedFresh, hfu],
    rfl, rfl, rfl⟩
  unfold enrichWithDetails
  rw [hms] at hnt
  simp [hi, hms, enrichSlot, hnt]

/-- Membership in `orderedInsert`. -/
lemma mem_orderedInsert {le : α → α → Bool} {a x : α} :
    ∀ {l : List α}, x ∈ orderedInsert le a l ↔ x = a ∨ x ∈ l := by
  intro l
  induction l with
  | nil => simp [orderedInsert]
  | cons b t ih =>
      unfold orderedInsert
      split
      · simp
      · simp only [List.mem_cons, ih]
        tauto

/-- `orderedInsert` preserves sortedness of a transitive, total Boolean
order. -/
lemma pairwise_orderedInsert {le : α → α → Bool}
    (trans : ∀ a b c, le a b = true → le b c = true → le a c = true)
    (total : ∀ a b, le a b = true ∨ le b a = true) (a : α) :
    ∀ {l : List α}, l.Pairwise (fun x y => le x y = true) →
      (orderedInsert le a l).Pairwise (fun x y => le x y = true) := by
  intro l
  induction l with
  | nil => simp [orderedInsert]
  | cons b t ih =>
      intro hp
      rw [List.pairwise_cons] at hp
      obtain ⟨hb, ht⟩ := hp
      unfold orderedInsert
      split
      · next hab =>
          rw [List.pairwise_cons]
          refine ⟨?_, List.pairwise_cons.mpr ⟨hb, ht⟩⟩
          intro x hx
          rcases List.mem_cons.mp hx with rfl | hx
          · exact hab
          · exact trans a b x hab (hb x hx)
      · next hab =>
          rw [List.pairwise_cons]
          refine ⟨?_, ih ht⟩
          intro x hx
          rcases mem_orderedInsert.mp hx with rfl | hx
          · rcases total b x with h | h
            · exact h
            · exact absurd h (by simpa using hab)
          · exact hb x hx

/-- `stableSort` sorts with respect to a transitive, total Boolean order. -/
lemma pairwise_stableSort (le : α → α → Bool)
    (trans : ∀ a b c, le a b = true → le b c = true → le a c = true)
    (total : ∀ a b, le a b = true ∨ le b a = true) :
    ∀ (l : List α), (stableSort le l).Pairwise (fun x y => le x y = true) := by
  intro l
  induction l with
  | nil => simp [stableSort]
  | cons a t ih => exact pairwise_orderedInsert trans total a ih

/-- `compareStart` is transitively below zero. -/
lemma compareStart_le_trans {x y z : EnrichedEvent}
    (h1 : compareStart x y ≤ 0) (h2 : compareStart y z ≤ 0) :
    compareStart x z ≤ 0 := by
  unfold compareStart at *
  cases hx : x.referenceDate <|> x.startDate <;>
    cases hy : y.referenceDate <|> y.startDate <;>
    cases hz : z.referenceDate <|> z.startDate <;>
    simp_all <;> omega

/-- `compareStart` yields a total comparison. -/
lemma compareStart_le_total (x y : EnrichedEvent) :
    compareStart x y ≤ 0 ∨ compareStart y x ≤ 0 := by
  unfold compareStart
  cases hx : x.referenceDate <|> x.startDate <;>
    cases hy : y.referenceDate <|> y.startDate <;>
    simp_all <;> omega

/-- Under the `start-desc` sort key, `applyFilters` is the stable sort of
the filtered list by the argument-swapped comparator. -/
lemma applyFilters_desc_eq (filters : FilterState) (events : List EnrichedEvent)
    (hs : filters.sort = "start-desc".toList) :
    ∃ L, applyFilters filters events =
      stableSort (fun a b => decide (compareStart b a ≤ 0)) L := by
  unfold applyFilters
  simp only [hs, eq_self_iff_true, if_true]
  exact ⟨_, rfl⟩

/-- C2 (amended): under the `start-desc` sort, `applyFilters` places every
event with no reference date BEFORE all events that have one (the
argument-swapped comparator pushes missing dates to the front, not the
end), and orders dated events by descending reference date. -/
theorem c2_nodate_first_under_desc (filters : FilterState) (events : List EnrichedEvent)
    (hs : filters.sort = "start-desc".toList)
    (i j : Nat) (hij : i < j) (a b : EnrichedEvent)
    (ha : (applyFilters filters events)[i]? = some a)
    (hb : (applyFilters filters events)[j]? = some b) :
    ((b.referenceDate <|> b.startDate) = none →
      (a.referenceDate <|> a.startDate) = none) ∧
    (∀ ta tb : Int, (a.referenceDate <|> a.startDate) = some ta →
      (b.referenceDate <|> b.startDate) = some tb → tb ≤ ta) := by
  obtain ⟨L, hL⟩ := applyFilters_desc_eq filters events hs
  rw [hL] at ha hb
  have hp := pairwise_stableSort (fun a b => decide (compareStart b a ≤ 0))
    (fun x y z h1 h2 => decide_eq_true
      (compareStart_le_trans (of_decide_eq_true h2) (of_decide_eq_true h1)))
    (fun x y => by
      rcases compareStart_le_total y x with h | h
      · exact Or.inl (decide_eq_true h)
      · exact Or.inr (decide_eq_true h)) L
  obtain ⟨hia, haa⟩ := List.getElem?_eq_some_iff.mp ha
  obtain ⟨hjb, hbb⟩ := List.getElem?_eq_some_iff.mp hb
  have hR := List.pairwise_iff_getElem.mp hp i j hia hjb hij
  rw [haa, hbb] at hR
  have hba : compareStart b a ≤ 0 := of_decide_eq_true hR
  constructor
  · intro hnd
    cases hca : (a.referenceDate <|> a.startDate) with
    | none => rfl
    | some v =>
        exfalso
        unfold compareStart at hba
        rw [hnd, hca] at hba
        simp at hba
  · intro ta tb hta htb
    unfold compareStart at hba
    rw [hta, htb] at hba
    simpa using hba

/-- Substring containment respects containment of the needles. -/
lemma includes_trans {n a b : Str} (hab : a <:+: b) (h : includes n b = true) :
    includes n a = true := by
  unfold includes at *
  exact decide_eq_true (hab.trans (of_decide_eq_true h))

/-- Counterexample for C1: on the title 出遊電影 the scraper classifier
returns `movie` (priority scan first) while the frontend classifier
returns `outing` (marker check first), so the two classifiers are not
behaviorally identical. -/
theorem c1_counterexample :
    detectCategory "出遊電影".toList = Category.movie ∧
    detectCategoryFromTitle "出遊電影".toList = Category.outing ∧
    detectCategory "出遊電影".toList ≠ detectCategoryFromTitle "出遊電影".toList := by
  decide

/-- C1 (amended): the two classifiers agree on every title whose trimmed
form avoids the outing marker 遊 (which the frontend checks first but the
scraper checks last) and the keywords present in only one of the two
keyword tables (影唱 and 改版播放 scraper-only; 影視, 影片 and 放映
frontend-only). -/
theorem c1_classifiers_agree (title : Str)
    (h1 : includes (jsTrim title) "遊".toList = false)
    (h2 : includes (jsTrim title) "影唱".toList = false)
    (h3 : includes (jsTrim title) "改版播放".toList = false)
    (h4 : includes (jsTrim title) "影視".toList = false)
    (h5 : includes (jsTrim title) "影片".toList = false)
    (h6 : includes (jsTrim title) "放映".toList = false) :
    detectCategory title = detectCategoryFromTitle title := by
  by_cases hT : title.isEmpty
  · unfold detectCategory detectCategoryFromTitle
    rw [if_pos hT, if_pos hT]
  · set N := jsTrim title with hN
    have hMarker : (OUTING_MARKERS.any fun m => includes N m) = false := by
      simp only [OUTING_MARKERS, List.map_cons, List.map_nil, List.any_cons, List.any_nil]
      simpa using h1
    have excl : ∀ k : Str, "遊".toList <:+: k → includes N k = false := by
      intro k hk
      cases hX : includes N k
      · rfl
      · exact absurd (includes_trans hk hX) (by simpa using h1)
    have e1 : includes N "出遊".toList = false := excl _ (by decide)
    have e2 : includes N "旅遊".toList = false := excl _ (by decide)
    have e3 : includes N "遊程".toList = false := excl _ (by decide)
    have e4 : includes N "團遊".toList = false := excl _ (by decide)
    have e5 : includes N "國外旅遊".toList = false := excl _ (by decide)
    have hMovieEq : ((scraperKeywords Category.movie).any fun w => includes N w) =
        ((appKeywords Category.movie).any fun w => includes N w) := by
      simp only [scraperKeywords, appKeywords, List.map_cons, List.map_nil,
        List.any_cons, List.any_nil]
      cases hA : includes N "電影".toList
      · have hB : includes N "電影活動".toList = false := by
          cases hX : includes N "電影活動".toList
          · rfl
          · exact absurd (includes_trans (a := "電影".toList) (by decide) hX)
              (by simpa using hA)
        have hC : includes N "電影欣賞".toList = false := by
          cases hX : includes N "電影欣賞".toList
          · rfl
          · exact absurd (includes_trans (a := "電影".toList) (by decide) hX)
              (by simpa using hA)
        rw [h2, h3, h4, h5, h6, hB, hC]
        simp
      · rfl
    have hWorkshopKw : scraperKeywords Category.workshop = appKeywords Category.workshop := by
      decide
    have hMeetingKw : scraperKeywords Category.meeting = appKeywords Category.meeting := by
      decide
    have hOutingEq : ((scraperKeywords Category.outing).any fun w => includes N w) =
        ((appKeywords Category.outing).any fun w => includes N w) := by
      simp only [scraperKeywords, appKeywords, List.map_cons, List.map_nil,
        List.any_cons, List.any_nil]
      rw [e1, e2, e3, e4, e5]
      simp
    have hfind : (CATEGORY_PRIORITY.find? fun c => (scraperKeywords c).any fun w => includes N w) =
        (CATEGORY_PRIORITY.find? fun c => (appKeywords c).any fun w => includes N w) := by
      simp only [CATEGORY_PRIORITY, List.find?]
      rw [hMovieEq, hWorkshopKw, hMeetingKw, hOutingEq]
    unfold detectCategory detectCategoryFromTitle
    rw [if_neg hT, if_neg hT]
    dsimp only
    rw [← hN, hMarker, hfind]
    cases (CATEGORY_PRIORITY.find? fun c => (appKeywords c).any fun w => includes N w) with
    | some c => rfl
    | none => simp

/-- Witness for C1 (amended): a title avoiding the marker and all
non-shared keywords classifies identically in both classifiers. -/
theorem c1_classifiers_agree_witness :
    detectCategory "電影欣賞之夜".toList = detectCategoryFromTitle "電影欣賞之夜".toList :=
  c1_classifiers_agree "電影欣賞之夜".toList (by decide) (by decide) (by decide)
    (by decide) (by decide) (by decide)

/-- Counterexample for C6: the title 電影講習會議 matches both workshop
(講習) and meeting (會議) keywords yet the scraper classifies it as
`movie`, and the title 電影會議遊 matches both movie (電影) and meeting
(會議) keywords yet the frontend classifies it as `outing`. -/
theorem c6_counterexample :
    ((scraperKeywords Category.workshop).any fun w =>
      includes (jsTrim "電影講習會議".toList) w) = true ∧
    ((scraperKeywords Category.meeting).any fun w =>
      includes (jsTrim "電影講習會議".toList) w) = true ∧
    detectCategory "電影講習會議".toList = Category.movie ∧
    ((appKeywords Category.movie).any fun w =>
      includes (jsTrim "電影會議遊".toList) w) = true ∧
    ((appKeywords Category.meeting).any fun w =>
      includes (jsTrim "電影會議遊".toList) w) = true ∧
    detectCategoryFromTitle "電影會議遊".toList = Category.outing := by
  decide

/-- C6 (amended): classification resolves to the first category in the
priority order [movie, workshop, meeting, outing] among those whose
keywords match — so movie+meeting resolves to movie, and workshop+meeting
resolves to workshop only when no movie keyword also matches; for the
frontend classifier this additionally requires that the title does not
contain the outing marker 遊, which preempts the priority scan. -/
theorem c6_priority_resolution (title : Str) :
    (((scraperKeywords Category.movie).any fun w => includes (jsTrim title) w) = true →
      ((scraperKeywords Category.meeting).any fun w => includes (jsTrim title) w) = true →
      detectCategory title = Category.movie) ∧
    (((scraperKeywords Category.workshop).any fun w => includes (jsTrim title) w) = true →
      ((scraperKeywords Category.meeting).any fun w => includes (jsTrim title) w) = true →
      ((scraperKeywords Category.movie).any fun w => includes (jsTrim title) w) = false →
      detectCategory title = Category.workshop) ∧
    (includes (jsTrim title) "遊".toList = false →
      ((appKeywords Category.movie).any fun w => includes (jsTrim title) w) = true →
      ((appKeywords Category.meeting).any fun w => includes (jsTrim title) w) = true →
      detectCategoryFromTitle title = Category.movie) ∧
    (includes (jsTrim title) "遊".toList = false →
      ((appKeywords Category.workshop).any fun w => includes (jsTrim title) w) = true →
      ((appKeywords Category.meeting).any fun w => includes (jsTrim title) w) = true →
      ((appKeywords Category.movie).any fun w => includes (jsTrim title) w) = false →
      detectCategoryFromTitle title = Category.workshop) := by
  by_cases hT : title.isEmpty
  · have hnil : title = [] := List.isEmpty_iff.mp hT
    subst hnil
    refine ⟨?_, ?_, ?_, ?_⟩
    · intro hm
      exact absurd hm (by decide)
    · intro hw
      exact absurd hw (by decide)
    · intro _ hm
      exact absurd hm (by decide)
    · intro _ hw
      exact absurd hw (by decide)
  · have hprio : CATEGORY_PRIORITY =
        [Category.movie, Category.workshop, Category.meeting, Category.outing] := rfl
    refine ⟨?_, ?_, ?_, ?_⟩
    · intro hm _
      have hfind : (CATEGORY_PRIORITY.find? fun c =>
          (scraperKeywords c).any fun w => includes (jsTrim title) w) = some Category.movie := by
        rw [hprio]
        exact List.find?_cons_of_pos _ hm
      unfold detectCategory
      rw [if_neg hT]
      dsimp only
      rw [hfind]
    · intro hw _ hnm
      have hfind : (CATEGORY_PRIORITY.find? fun c =>
          (scraperKeywords c).any fun w => includes (jsTrim title) w) = some Category.workshop := by
        rw [hprio]
        rw [List.find?_cons_of_neg _ (by simp [hnm])]
        exact List.find?_cons_of_pos _ hw
      unfold detectCategory
      rw [if_neg hT]
      dsimp only
      rw [hfind]
    · intro hmk hm _
      have hMarker : (OUTING_MARKERS.any fun m => includes (jsTrim title) m) = false := by
        simp only [OUTING_MARKERS, List.map_cons, List.map_nil, List.any_cons, List.any_nil]
        simpa using hmk
      have hfind : (CATEGORY_PRIORITY.find? fun c =>
          (appKeywords c).any fun w => includes (jsTrim title) w) = some Category.movie := by
        rw [hprio]
        exact List.find?_cons_of_pos _ hm
      unfold detectCategoryFromTitle
      rw [if_neg hT]
      dsimp only
      rw [hMarker]
      simp only [Bool.false_eq_true, if_false]
      rw [hfind]
    · intro hmk hw _ hnm
      have hMarker : (OUTING_MARKERS.any fun m => includes (jsTrim title) m) = false := by
        simp only [OUTING_MARKERS, List.map_cons, List.map_nil, List.any_cons, List.any_nil]
        simpa using hmk
      have hfind : (CATEGORY_PRIORITY.find? fun c =>
          (appKeywords c).any fun w => includes (jsTrim title) w) = some Category.workshop := by
        rw [hprio]
        rw [List.find?_cons_of_neg _ (by simp [hnm])]
        exact List.find?_cons_of_pos _ hw
      unfold detectCategoryFromTitle
      rw [if_neg hT]
      dsimp only
      rw [hMarker]
      simp only [Bool.false_eq_true, if_false]
      rw [hfind]

/-- Witness for C6 (amended): concrete multi-keyword titles resolving by
priority in both classifiers. -/
theorem c6_priority_resolution_witness :
    detectCategory "電影大會".toList = Category.movie ∧
    detectCategory "講習大會".toList = Category.workshop ∧
    detectCategoryFromTitle "電影大會".toList = Category.movie ∧
    detectCategoryFromTitle "講習大會".toList = Category.workshop :=
  ⟨(c6_priority_resolution "電影大會".toList).1 (by decide) (by decide),
   (c6_priority_resolution "講習大會".toList).2.1 (by decide) (by decide) (by decide),
   (c6_priority_resolution "電影大會".toList).2.2.1 (by decide) (by decide) (by decide),
   (c6_priority_resolution "講習大會".toList).2.2.2 (by decide) (by decide) (by decide)
     (by decide)⟩

/-- One dedup step only appends to the accumulator. -/
lemma dedupStep_acc (st : List Str × List FreshEvent) (a : FreshEvent) :
    ∃ u, (dedupStep st a).2 = st.2 ++ u := by
  unfold dedupStep
  dsimp only
  split
  · exact ⟨[a], rfl⟩
  · exact ⟨[], by simp⟩

/-- The folded accumulator only ever grows by appending. -/
lemma dedup_acc_prefix : ∀ (l : List FreshEvent) (st : List Str × List FreshEvent),
    ∃ t, (l.foldl dedupStep st).2 = st.2 ++ t := by
  intro l
  induction l with
  | nil => exact fun st => ⟨[], by simp⟩
  | cons a l ih =>
      intro st
      rw [List.foldl_cons]
      obtain ⟨u, hu⟩ := dedupStep_acc st a
      obtain ⟨t, ht⟩ := ih (dedupStep st a)
      exact ⟨u ++ t, by rw [ht, hu, List.append_assoc]⟩

/-- The structural invariants of the aggregation fold: the pushed tail is
a subsequence of the input, every pushed event has a truthy unseen key,
the pushed keys are distinct, and every truthy unseen key of the input is
represented. -/
lemma dedup_foldl_spec : ∀ (l : List FreshEvent) (seen : List Str) (acc : List FreshEvent),
    ∃ t : List FreshEvent,
      (l.foldl dedupStep (seen, acc)).2 = acc ++ t ∧
      t.Sublist l ∧
      (∀ f ∈ t, strTruthy (freshKey f) = true ∧ freshKey f ∉ seen) ∧
      (t.map freshKey).Nodup ∧
      (∀ f ∈ l, strTruthy (freshKey f) = true → freshKey f ∉ seen →
        freshKey f ∈ t.map freshKey) := by
  intro l
  induction l with
  | nil =>
      intro seen acc
      exact ⟨[], by simp, List.nil_sublist _, by simp, by simp, by simp⟩
  | cons a l ih =>
      intro seen acc
      rw [List.foldl_cons]
      by_cases hcond : (strTruthy (freshKey a) && !(decide (freshKey a ∈ seen))) = true
      · obtain ⟨hT, hNin⟩ : strTruthy (freshKey a) = true ∧ freshKey a ∉ seen := by
          simpa using hcond
        have hstep : dedupStep (seen, acc) a = (freshKey a :: seen, acc ++ [a]) := by
          unfold dedupStep
          rw [if_pos hcond]
        rw [hstep]
        obtain ⟨t, h1, h2, h3, h4, h5⟩ := ih (freshKey a :: seen) (acc ++ [a])
        refine ⟨a :: t, ?_, ?_, ?_, ?_, ?_⟩
        · rw [h1]
          simp
        · exact List.Sublist.cons₂ a h2
        · intro f hf
          rcases List.mem_cons.mp hf with rfl | hf
          · exact ⟨hT, hNin⟩
          · exact ⟨(h3 f hf).1, fun hm => (h3 f hf).2 (List.mem_cons_of_mem _ hm)⟩
        · rw [List.map_cons, List.nodup_cons]
          refine ⟨?_, h4⟩
          intro hmem
          obtain ⟨f, hf, hkey⟩ := List.mem_map.mp hmem
          exact (h3 f hf).2 (hkey ▸ List.mem_cons_self _ _)
        · intro f hf hfT hfNin
          rcases List.mem_cons.mp hf with rfl | hf
          · rw [List.map_cons]
            exact List.mem_cons_self _ _
          · rw [List.map_cons]
            by_cases hk : freshKey f = freshKey a
            · rw [hk]
              exact List.mem_cons_self _ _
            · refine List.mem_cons_of_mem _ (h5 f hf hfT ?_)
              intro hm
              rcases List.mem_cons.mp hm with h | h
              · exact hk h
              · exact hfNin h
      · have hstep : dedupStep (seen, acc) a = (seen, acc) := by
          unfold dedupStep
          rw [if_neg hcond]
        rw [hstep]
        obtain ⟨t, h1, h2, h3, h4, h5⟩ := ih seen acc
        refine ⟨t, h1, List.Sublist.cons a h2, h3, h4, ?_⟩
        intro f hf hfT hfNin
        rcases List.mem_cons.mp hf with rfl | hf
        · exact absurd (by simp [hfT, hfNin]) hcond
        · exact h5 f hf hfT hfNin

/-- For every input event with a truthy unseen key, the first element of
the input carrying that key ends up in the aggregated output. -/
lemma dedup_first_occ : ∀ (l : List FreshEvent) (seen : List Str) (acc : List FreshEvent)
    (f : FreshEvent), f ∈ l → strTruthy (freshKey f) = true → freshKey f ∉ seen →
    ∃ g, l.find? (fun x => freshKey x == freshKey f) = some g ∧
      g ∈ (l.foldl dedupStep (seen, acc)).2 := by
  intro l
  induction l with
  | nil =>
      intro seen acc f hf
      simp at hf
  | cons a l ih =>
      intro seen acc f hf hT hNin
      by_cases hk : freshKey a = freshKey f
      · refine ⟨a, List.find?_cons_of_pos _ (by simp [hk]), ?_⟩
        have hcond : (strTruthy (freshKey a) && !(decide (freshKey a ∈ seen))) = true := by
          rw [hk]
          simp [hT, hNin]
        rw [List.foldl_cons]
        have hstep : dedupStep (seen, acc) a = (freshKey a :: seen, acc ++ [a]) := by
          unfold dedupStep
          rw [if_pos hcond]
        rw [hstep]
        obtain ⟨t, ht⟩ := dedup_acc_prefix l (freshKey a :: seen, acc ++ [a])
        rw [ht]
        simp
      · have hfl : f ∈ l := by
          rcases List.mem_cons.mp hf with rfl | h
          · exact absurd rfl hk
          · exact h
        have hfind : List.find? (fun x => freshKey x == freshKey f) (a :: l) =
            List.find? (fun x => freshKey x == freshKey f) l :=
          List.find?_cons_of_neg _ (by simp [hk])
        rw [hfind, List.foldl_cons]
        by_cases hcond : (strTruthy (freshKey a) && !(decide (freshKey a ∈ seen))) = true
        · have hstep : dedupStep (seen, acc) a = (freshKey a :: seen, acc ++ [a]) := by
            unfold dedupStep
            rw [if_pos hcond]
          rw [hstep]
          refine ih (freshKey a :: seen) (acc ++ [a]) f hfl hT ?_
          intro hm
          rcases List.mem_cons.mp hm with h | h
          · exact hk h.symm
          · exact hNin h
        · have hstep : dedupStep (seen, acc) a = (seen, acc) := by
            unfold dedupStep
            rw [if_neg hcond]
          rw [hstep]
          exact ih seen acc f hfl hT hNin

/-- C10: aggregation over the parsed list pages keeps an event only when
its identity key is a non-empty string (so an event with no `detailUrl`
and an empty title is dropped entirely), keeps events in first-occurrence
order as a subsequence of the concatenated pages, keeps at most one event
per key, and keeps exactly the first occurrence of every non-empty key. -/
theorem c10_aggregation_dedup (pages : List (List FreshEvent)) :
    (aggregateEvents pages).Sublist pages.flatten ∧
    (∀ f ∈ aggregateEvents pages, strTruthy (freshKey f) = true) ∧
    (∀ f : FreshEvent, f.detailUrl = none → f.title = [] → f ∉ aggregateEvents pages) ∧
    ((aggregateEvents pages).map freshKey).Nodup ∧
    (∀ f ∈ pages.flatten, strTruthy (freshKey f) = true →
      ∃ g, pages.flatten.find? (fun x => freshKey x == freshKey f) = some g ∧
        g ∈ aggregateEvents pages) := by
  have hagg : aggregateEvents pages = ((pages.flatten).foldl dedupStep ([], [])).2 := by
    unfold aggregateEvents
    rw [List.foldl_flatten]
  obtain ⟨t, h1, h2, h3, h4, h5⟩ := dedup_foldl_spec pages.flatten [] []
  have ht : aggregateEvents pages = t := by
    rw [hagg, h1]
    simp
  refine ⟨?_, ?_, ?_, ?_, ?_⟩
  · rw [ht]
    exact h2
  · rw [ht]
    exact fun f hf => (h3 f hf).1
  · intro f hdu hti hmem
    rw [ht] at hmem
    have hT := (h3 f hmem).1
    have hkey : freshKey f = [] := by
      unfold freshKey eventKey
      rw [hdu, hti]
    rw [hkey] at hT
    simp [strTruthy] at hT
  · rw [ht]
    exact h4
  · intro f hf hT
    obtain ⟨g, hg1, hg2⟩ := dedup_first_occ pages.flatten [] [] f hf hT (by simp)
    rw [hagg]
    exact ⟨g, hg1, hg2⟩

/-- Url shared by the two duplicate C10 witness events. -/
def c10dupUrl : Str := "https://www.kaa.org.tw/news_detail.php?t1=1&id=3".toList

/-- First occurrence of the duplicated key in the C10 witness. -/
def c10fA : FreshEvent :=
  { title := "活動己".toList, detailUrl := some c10dupUrl, location := none,
    dates := [], timeInfo := [], note := none, noteUrl := none,
    register := none, registerUrl := none, extras := [], category := .other }

/-- Later duplicate of the same key in the C10 witness. -/
def c10fDup : FreshEvent :=
  { title := "活動己續".toList, detailUrl := some c10dupUrl, location := none,
    dates := [], timeInfo := [], note := none, noteUrl := none,
    register := none, registerUrl := none, extras := [], category := .other }

/-- An event with no detail url and an empty title (falsy key). -/
def c10empty : FreshEvent :=
  { title := [], detailUrl := none, location := none,
    dates := [], timeInfo := [], note := none, noteUrl := none,
    register := none, registerUrl := none, extras := [], category := .other }

/-- Two parsed list pages for the C10 witness. -/
def c10pages : List (List FreshEvent) := [[c10fA, c10empty], [c10fDup]]

/-- Witness for C10: the empty-key event is dropped, keys of the output
are distinct, and the duplicated key is represented by its first
occurrence. -/
theorem c10_aggregation_dedup_witness :
    c10empty ∉ aggregateEvents c10pages ∧
    ((aggregateEvents c10pages).map freshKey).Nodup ∧
    (∃ g, c10pages.flatten.find? (fun x => freshKey x == freshKey c10fDup) = some g ∧
      g ∈ aggregateEvents c10pages) :=
  have h := c10_aggregation_dedup c10pages
  ⟨h.2.2.1 c10empty rfl rfl, h.2.2.2.1, h.2.2.2.2 c10fDup (by decide) (by decide)⟩

/-- A dated enriched event for the C2 counterexample. -/
def c2dated : EnrichedEvent :=
  { title := "活動丙".toList, detailUrl := none, location := none,
    dates := ["2024-06-08".toList], timeInfo := [], note := none, noteUrl := none,
    register := none, registerUrl := none, extras := [], category := .other,
    remarks := none, downloads := none, parsedDates := [1717776000000],
    startDate := some 1717776000000, endDate := some 1717776000000,
    referenceDate := some 1717776000000, statusCategory := .comingSoon,
    daysUntilStart := some 7 }

/-- A date-less enriched event for the C2 counterexample. -/
def c2nodate : EnrichedEvent :=
  { title := "活動丁".toList, detailUrl := none, location := none,
    dates := [], timeInfo := [], note := none, noteUrl := none,
    register := none, registerUrl := none, extras := [], category := .other,
    remarks := none, downloads := none, parsedDates := [],
    startDate := none, endDate := none, referenceDate := none,
    statusCategory := .noDate, daysUntilStart := none }

/-- A second date-less enriched event, for the C2 witness. -/
def c2nodateB : EnrichedEvent :=
  { title := "活動戊".toList, detailUrl := none, location := none,
    dates := [], timeInfo := [], note := none, noteUrl := none,
    register := none, registerUrl := none, extras := [], category := .other,
    remarks := none, downloads := none, parsedDates := [],
    startDate := none, endDate := none, referenceDate := none,
    statusCategory := .noDate, daysUntilStart := none }

/-- The `start-desc` filter state used by the C2 theorems: no search, no
status restriction, all categories. -/
def c2filters : FilterState :=
  { search := [], sort := "start-desc".toList, category := "all".toList,
    statuses := [] }

/-- Counterexample for C2: under `start-desc` the date-less event is
placed BEFORE the dated one, so it does not come after all events that
have a reference date. -/
theorem c2_counterexample :
    applyFilters c2filters [c2dated, c2nodate] = [c2nodate, c2dated] ∧
    (c2nodate.referenceDate <|> c2nodate.startDate) = none ∧
    (c2dated.referenceDate <|> c2dated.startDate) = some 1717776000000 := by decide

/-- Witness for C2 (amended): instantiated on two date-less events. -/
theorem c2_nodate_first_under_desc_witness :
    (applyFilters c2filters [c2nodate, c2nodateB])[0]? = some c2nodate ∧
    (c2nodate.referenceDate <|> c2nodate.startDate) = none :=
  ⟨by decide,
   (c2_nodate_first_under_desc c2filters [c2nodate, c2nodateB] rfl 0 1 (by decide)
      c2nodate c2nodateB (by decide) (by decide)).1 (by decide)⟩

/-- Url of the C9 witness event. -/
def c9url : Str := "https://www.kaa.org.tw/news_detail.php?t1=1&id=55".toList

/-- Fresh list-row event of the C9 witness: null registration keys. -/
def c9fresh : FreshEvent :=
  { title := "秋季講座".toList, detailUrl := some c9url, location := none,
    dates := [], timeInfo := [], note := none, noteUrl := none,
    register := none, registerUrl := none, extras := [], category := .workshop }

/-- Complete cached record of the C9 witness, carrying registration info. -/
def c9cached : Event :=
  { title := "秋季講座".toList, detailUrl := some c9url, location := none,
    dates := [], timeInfo := [], note := none, noteUrl := none,
    register := some "線上報名".toList,
    registerUrl := some "https://www.kaa.org.tw/news_apply.php?id=55".toList,
    extras := [], category := some .workshop,
    remarks := some "需先報名".toList,
    downloads := some [⟨"簡章".toList, "https://www.kaa.org.tw/d.pdf".toList⟩] }

/-- Single-entry cache of the C9 witness. -/
def c9cache : Cache := fun k => if k = c9url then some c9cached else none

/-- Fetch capability of the C9 witness (never consulted: not a target). -/
def c9fetch : Fetch := fun _ => .error "offline".toList

/-- Witness for C9: the cached registration info is lost from the output
although the cached record was complete and hence not re-fetched. -/
theorem c9_fresh_nulls_overwrite_witness :
    isTargetEvent c9cache (mergeStep c9cache c9fresh) = false ∧
    (enrichWithDetails c9fetch c9cache [c9fresh])[0]? =
      some (mergeCachedFresh c9cached c9fresh) ∧
    (mergeCachedFresh c9cached c9fresh).register = none ∧
    (mergeCachedFresh c9cached c9fresh).registerUrl = none :=
  have h := c9_fresh_nulls_overwrite c9fetch c9cache [c9fresh] 0 c9fresh c9cached
    (by decide) (by decide) (by decide) (by decide) (by decide) (by decide)
    (by decide) (by decide)
  ⟨h.1, h.2.1, h.2.2.1, h.2.2.2.1⟩

/-- A concrete event for the C5 witness: a single scraped date 2024-06-08. -/
def c5Event : Event :=
  { title := "活動".toList, detailUrl := none, location := none,
    dates := ["2024-06-08".toList], timeInfo := [], note := none, noteUrl := none,
    register := none, registerUrl := none, extras := [], category := none,
    remarks := none, downloads := none }

/-- The Taipei-local midnight timestamp of 2024-06-01 (what
`getTaipeiToday` yields on that day). -/
def c5Today : Int := 1717171200000

/-- Witness for C5: with today = 2024-06-01 and dates = ["2024-06-08"],
the derived offset is 7 days and the status is `coming-soon`. -/
theorem c5_status_derivation_witness :
    (enrichEvent c5Today c5Event).referenceDate = some 1717776000000 ∧
    (enrichEvent c5Today c5Event).daysUntilStart = some 7 ∧
    (enrichEvent c5Today c5Event).statusCategory = .comingSoon := by
  have h := (c5_status_derivation c5Today c5Event).2 1717776000000 (by decide)
  refine ⟨by decide, ?_, ?_⟩
  · rw [h.1]; decide
  · exact h.2.2.1 (by decide)

end LineEvent
